import Mathlib

/-!
Shallow embedding of the Dragonfly burn-severity pipeline
(`src/dragonfly/processing.py`, `src/dragonfly/pipeline.py`,
`src/dragonfly/viz.py`).

Raster cell values are modelled by `F`: an IEEE-754 double is either NaN,
+Inf, -Inf, or a finite number (modelled exactly by a rational; rounding
and overflow are not modelled).  Rasters are lists of cells; numpy
elementwise operations become `List.zipWith` / `List.map`.
-/

namespace Dragonfly

/-- A floating-point cell value: NaN, +Inf, -Inf or a finite rational. -/
inductive F where
  | nan : F
  | pinf : F
  | ninf : F
  | fin : ℚ → F
deriving DecidableEq, Repr

namespace F

/-- IEEE negation: -NaN is NaN, -(±Inf) flips sign, finite negates. -/
def neg : F → F
  | nan => nan
  | pinf => ninf
  | ninf => pinf
  | fin q => fin (-q)

/-- IEEE addition on cell values (no rounding/overflow modelled). -/
def add : F → F → F
  | nan, _ => nan
  | _, nan => nan
  | pinf, ninf => nan
  | ninf, pinf => nan
  | pinf, _ => pinf
  | _, pinf => pinf
  | ninf, _ => ninf
  | _, ninf => ninf
  | fin a, fin b => fin (a + b)

/-- IEEE subtraction, `a - b = a + (-b)`. -/
def sub (a b : F) : F := add a (neg b)

/-- IEEE true division, as `np.true_divide` computes it elementwise:
`0/0`, `Inf/Inf` are NaN; finite `x/0` is a signed infinity; finite over
infinite is 0. -/
def div : F → F → F
  | nan, _ => nan
  | _, nan => nan
  | pinf, pinf => nan
  | pinf, ninf => nan
  | ninf, pinf => nan
  | ninf, ninf => nan
  | pinf, fin d => if d < 0 then ninf else pinf
  | ninf, fin d => if d < 0 then pinf else ninf
  | fin _, pinf => fin 0
  | fin _, ninf => fin 0
  | fin n, fin d =>
      if d = 0 then (if n = 0 then nan else if 0 < n then pinf else ninf)
      else fin (n / d)

/-- Is the value one of the two infinities? -/
def isInf : F → Bool
  | pinf => true
  | ninf => true
  | _ => false

/-- Is the value NaN? (`np.isnan`). -/
def isNanB : F → Bool
  | nan => true
  | _ => false

/-- IEEE strict less-than as numpy computes it: any comparison with NaN
is false; -Inf is below and +Inf above every finite value. -/
def ltB : F → F → Bool
  | nan, _ => false
  | _, nan => false
  | fin a, fin b => decide (a < b)
  | ninf, ninf => false
  | pinf, pinf => false
  | ninf, _ => true
  | _, pinf => true
  | pinf, _ => false
  | _, ninf => false

/-- IEEE less-or-equal: false on NaN, `Inf <= Inf` true. -/
def leB : F → F → Bool
  | nan, _ => false
  | _, nan => false
  | fin a, fin b => decide (a ≤ b)
  | ninf, _ => true
  | _, pinf => true
  | pinf, fin _ => false
  | pinf, ninf => false
  | fin _, ninf => false

/-- `np.clip(x, lo, hi)` on one cell: NaN propagates, infinities clamp to
the bounds, finite values clamp to `[lo, hi]`. -/
def clip (lo hi : ℚ) : F → F
  | nan => nan
  | pinf => fin hi
  | ninf => fin lo
  | fin q => fin (min (max q lo) hi)

/-- `np.nan_to_num(x, nan=nanV, posinf=pinfV, neginf=ninfV)` on one cell. -/
def nanToNum (nanV pinfV ninfV : ℚ) : F → F
  | nan => fin nanV
  | pinf => fin pinfV
  | ninf => fin ninfV
  | fin q => fin q

end F

/-- `_safe_divide` (processing.py:34-38): true-divide, then every
non-finite result (NaN or ±Inf) is replaced by NaN. -/
def safe_divide (numerator denominator : F) : F :=
  match F.div numerator denominator with
  | F.fin q => F.fin q
  | _ => F.nan

/-- One cell of `calculate_nbr` (processing.py:41-52):
`_safe_divide(nir - swir, nir + swir)`. -/
def nbrVal (nir swir : F) : F :=
  safe_divide (F.sub nir swir) (F.add nir swir)

/-- `calculate_nbr` (processing.py:41-52), elementwise over the raster. -/
def calculate_nbr (nir swir : List F) : List F :=
  List.zipWith nbrVal nir swir

/-- numpy elementwise subtraction with 1-D broadcasting: equal lengths
subtract cellwise; a length-1 operand broadcasts against the other;
otherwise numpy raises (modelled as `none`). -/
def npSubtract (a b : List F) : Option (List F) :=
  if a.length = b.length then some (List.zipWith F.sub a b)
  else if a.length = 1 then some (b.map (fun y => F.sub (a.getD 0 F.nan) y))
  else if b.length = 1 then some (a.map (fun x => F.sub x (b.getD 0 F.nan)))
  else none

/-- `calculate_dnbr` (processing.py:55-58): `pre_fire_nbr - post_fire_nbr`,
with no shape check of its own — the behaviour on mismatched shapes is
numpy broadcasting. -/
def calculate_dnbr (pre_fire_nbr post_fire_nbr : List F) : Option (List F) :=
  npSubtract pre_fire_nbr post_fire_nbr

/-- `BurnSeverityClass` dataclass (processing.py:16-21). -/
structure BurnSeverityClass where
  name : String
  dnbr_min : ℚ
  dnbr_max : ℚ
  color : ℕ × ℕ × ℕ
deriving DecidableEq, Repr

/-- `BURN_SEVERITY_CLASSES` (processing.py:24-31). -/
def BURN_SEVERITY_CLASSES : List BurnSeverityClass :=
  [ ⟨"Enhanced Regrowth", -1/2, -1/4, (26, 152, 80)⟩,
    ⟨"High Regrowth", -1/4, -1/10, (102, 189, 99)⟩,
    ⟨"Unburned", -1/10, 1/10, (255, 255, 190)⟩,
    ⟨"Low Severity", 1/10, 27/100, (253, 174, 97)⟩,
    ⟨"Moderate Severity", 27/100, 66/100, (244, 109, 67)⟩,
    ⟨"High Severity", 66/100, 13/10, (215, 48, 39)⟩ ]

/-- The mask of one classification step (processing.py:69):
`(dnbr >= severity.dnbr_min) & (dnbr < severity.dnbr_max)`. -/
def inBandB (severity : BurnSeverityClass) (v : F) : Bool :=
  F.leB (F.fin severity.dnbr_min) v && F.ltB v (F.fin severity.dnbr_max)

/-- One cell of `classify_dnbr` (processing.py:61-71) generalised over the
band list: start from the fill value 255 and, for each band in list order,
overwrite the cell with the band index whenever the cell lies in the band. -/
def classifyVal (bands : List BurnSeverityClass) (v : F) : ℕ :=
  bands.enum.foldl (fun acc p => if inBandB p.2 v then p.1 else acc) 255

/-- `classify_dnbr` (processing.py:61-71), elementwise with the fixed
`BURN_SEVERITY_CLASSES` table. -/
def classify_dnbr (dnbr : List F) : List ℕ :=
  dnbr.map (classifyVal BURN_SEVERITY_CLASSES)

/-- One cell of `normalize_for_overlay` (processing.py:74-79):
clip to `[min_val, max_val]`, rescale linearly, then
`np.nan_to_num(·, nan=0.0, posinf=1.0, neginf=0.0)`. -/
def normalize_for_overlay (v : F) (min_val : ℚ := -1) (max_val : ℚ := 1) : F :=
  F.nanToNum 0 1 0
    (F.div (F.sub (F.clip min_val max_val v) (F.fin min_val))
      (F.fin (max_val - min_val)))

/-- The alpha channel of one cell of `colorize` (processing.py:105):
`(values_flat > 0).astype(np.uint8) * 180`. -/
def colorizeAlpha (v : F) : ℕ :=
  if F.ltB (F.fin 0) v then 180 else 0

/-- The alpha channel of one cell of the rendered overlay
(`raster_overlay`, viz.py:31-33): `colorize` applied to the
`normalize_for_overlay` output with the default bounds. -/
def overlayAlphaVal (v : F) : ℕ :=
  colorizeAlpha (normalize_for_overlay v)

/-- `dnbr[~np.isnan(dnbr)]` (pipeline.py:168). -/
def validDnbr (dnbr : List F) : List F :=
  dnbr.filter (fun v => !v.isNanB)

/-- `np.sum(valid_dnbr > 0.10)` (pipeline.py:171). -/
def burnedPixels (dnbr : List F) : ℕ :=
  (validDnbr dnbr).countP (fun v => F.ltB (F.fin (1/10)) v)

/-- `np.sum(valid_dnbr > 0.66)` (pipeline.py:172). -/
def highSeverityPixels (dnbr : List F) : ℕ :=
  (validDnbr dnbr).countP (fun v => F.ltB (F.fin (66/100)) v)

/-- `pixel_area_km2 = 100 / 1e6` (pipeline.py:174). -/
def pixel_area_km2 : ℚ := 100 / 1000000

/-- `NBRPipeline.compute_statistics` (pipeline.py:164-182), as the ordered
key/value mapping the Python dict literal builds. -/
def compute_statistics (dnbr : List F) : List (String × ℚ) :=
  let total_pixels : ℕ := (validDnbr dnbr).length
  let burned_pixels : ℕ := burnedPixels dnbr
  let high_severity : ℕ := highSeverityPixels dnbr
  [ ("total_area_km2", total_pixels * pixel_area_km2),
    ("burned_area_km2", burned_pixels * pixel_area_km2),
    ("burned_percentage",
      if 0 < total_pixels then 100 * burned_pixels / total_pixels else 0),
    ("high_severity_km2", high_severity * pixel_area_km2),
    ("high_severity_percentage",
      if 0 < total_pixels then 100 * high_severity / total_pixels else 0) ]

/-! ### Helper lemmas -/

theorem F.neg_add (a b : F) : F.neg (F.add a b) = F.add (F.neg a) (F.neg b) := by
  cases a <;> cases b <;> simp [F.neg, F.add] <;> ring

theorem F.add_comm (a b : F) : F.add a b = F.add b a := by
  cases a <;> cases b <;> simp [F.add] <;> ring

theorem F.sub_antisymm (a b : F) : F.sub a b = F.neg (F.sub b a) := by
  cases a <;> cases b <;> simp [F.sub, F.add, F.neg] <;> ring

theorem zipWith_sub_antisymm :
    ∀ (l1 l2 : List F),
      List.zipWith F.sub l1 l2 = (List.zipWith F.sub l2 l1).map F.neg
  | [], [] => rfl
  | [], _ :: _ => rfl
  | _ :: _, [] => rfl
  | a :: t1, b :: t2 => by
      simp only [List.zipWith_cons_cons, List.map_cons]
      exact congrArg₂ _ (F.sub_antisymm a b) (zipWith_sub_antisymm t1 t2)

theorem F.div_fin_of_ne {n d : ℚ} (hd : d ≠ 0) :
    F.div (F.fin n) (F.fin d) = F.fin (n / d) := by
  simp only [F.div]
  rw [if_neg hd]

theorem safe_divide_not_inf (n d : F) : (safe_divide n d).isInf = false := by
  unfold safe_divide
  rcases hd : F.div n d with _ | _ | _ | q <;> rfl

theorem nbrVal_nan_iff (a b : F) (ha : a.isInf = false) (hb : b.isInf = false) :
    nbrVal a b = F.nan ↔
      F.add a b = F.fin 0 ∨ a = F.nan ∨ b = F.nan := by
  cases a with
  | nan => simp [nbrVal, safe_divide, F.sub, F.neg, F.add, F.div]
  | pinf => exact absurd ha (by simp [F.isInf])
  | ninf => exact absurd ha (by simp [F.isInf])
  | fin qa =>
    cases b with
    | nan => simp [nbrVal, safe_divide, F.sub, F.neg, F.add, F.div]
    | pinf => exact absurd hb (by simp [F.isInf])
    | ninf => exact absurd hb (by simp [F.isInf])
    | fin qb =>
      by_cases hs : qa + qb = 0
      · constructor
        · intro _
          left
          simp [F.add, hs]
        · intro _
          simp only [nbrVal, safe_divide, F.sub, F.neg, F.add, F.div]
          rw [if_pos hs]
          split_ifs <;> rfl
      · simp only [nbrVal, safe_divide, F.sub, F.neg, F.add, F.div]
        rw [if_neg hs]
        simp [hs]

theorem nbrVal_range (qa qb : ℚ) (h0a : 0 ≤ qa) (h1a : qa ≤ 1) (h0b : 0 ≤ qb)
    (h1b : qb ≤ 1) (hne : qa + qb ≠ 0) :
    ∃ w : ℚ, nbrVal (F.fin qa) (F.fin qb) = F.fin w ∧ -1 ≤ w ∧ w ≤ 1 := by
  have hpos : 0 < qa + qb := lt_of_le_of_ne (by linarith) (Ne.symm hne)
  refine ⟨(qa + -qb) / (qa + qb), ?_, ?_, ?_⟩
  · simp only [nbrVal, safe_divide, F.sub, F.neg, F.add, F.div]
    rw [if_neg hne]
  · rw [le_div_iff₀ hpos]
    linarith
  · rw [div_le_one hpos]
    linarith

theorem zipWith_getD (f : F → F → F) :
    ∀ (l1 l2 : List F) (i : ℕ), l1.length = l2.length → i < l1.length →
      (List.zipWith f l1 l2).getD i F.nan = f (l1.getD i F.nan) (l2.getD i F.nan) := by
  intro l1
  induction l1 with
  | nil =>
    intro l2 i h hi
    exact absurd hi (by simp)
  | cons a t ih =>
    intro l2 i h hi
    cases l2 with
    | nil => simp at h
    | cons b t2 =>
      cases i with
      | zero => rfl
      | succ n =>
        simp only [List.zipWith_cons_cons, List.getD_cons_succ]
        exact ih t2 n (by simpa using h) (by simpa using hi)

theorem getD_isInf_false {l : List F} (hl : ∀ v ∈ l, v.isInf = false)
    {i : ℕ} (hi : i < l.length) : (l.getD i F.nan).isInf = false := by
  rw [List.getD_eq_getElem?_getD, List.getElem?_eq_getElem hi]
  exact hl _ (List.getElem_mem hi)

theorem foldl_overwrite (p : BurnSeverityClass → Bool)
    (l : List (ℕ × BurnSeverityClass)) :
    ∀ acc : ℕ,
      l.foldl (fun a q => if p q.2 then q.1 else a) acc =
        (((l.filter (fun q => p q.2)).map Prod.fst).getLast?).getD acc := by
  induction l with
  | nil => intro acc; rfl
  | cons hd t ih =>
    intro acc
    obtain ⟨i, b⟩ := hd
    simp only [List.foldl_cons, List.filter_cons]
    by_cases hp : p b = true
    · simp only [hp, if_true, List.map_cons, ih i]
      rcases h2 : (t.filter (fun q => p q.2)).map Prod.fst with _ | ⟨r, rs⟩
      · rw [h2]
        simp only [List.getLast?_nil, List.getLast?_singleton, Option.getD_none,
          Option.getD_some]
      · rw [h2, List.getLast?_cons_cons]
        rcases h3 : (r :: rs).getLast? with _ | x
        · exact absurd (List.getLast?_eq_none_iff.mp h3) (List.cons_ne_nil r rs)
        · simp only [Option.getD_some]
    · simp only [hp, if_false]
      exact ih acc

theorem notBand_left {q lo : ℚ} (hi : ℚ) (h : q < lo) : ¬(lo ≤ q ∧ q < hi) :=
  fun hc => absurd hc.1 (not_le.mpr h)

theorem notBand_right {q hi : ℚ} (lo : ℚ) (h : hi ≤ q) : ¬(lo ≤ q ∧ q < hi) :=
  fun hc => absurd hc.2 (not_lt.mpr h)

theorem classify_below (q : ℚ) (h : q < -1/2) :
    classifyVal BURN_SEVERITY_CLASSES (F.fin q) = 255 := by
  simp only [classifyVal, BURN_SEVERITY_CLASSES, List.enum, List.enumFrom, List.foldl,
    inBandB, F.leB, F.ltB, Bool.and_eq_true, decide_eq_true_eq]
  rw [if_neg (notBand_left (13/10) (by linarith)),
    if_neg (notBand_left (66/100) (by linarith)),
    if_neg (notBand_left (27/100) (by linarith)),
    if_neg (notBand_left (1/10) (by linarith)),
    if_neg (notBand_left (-1/10) (by linarith)),
    if_neg (notBand_left (-1/4) (by linarith))]

theorem classify_above (q : ℚ) (h : 13/10 ≤ q) :
    classifyVal BURN_SEVERITY_CLASSES (F.fin q) = 255 := by
  simp only [classifyVal, BURN_SEVERITY_CLASSES, List.enum, List.enumFrom, List.foldl,
    inBandB, F.leB, F.ltB, Bool.and_eq_true, decide_eq_true_eq]
  rw [if_neg (notBand_right (66/100) (by linarith)),
    if_neg (notBand_right (27/100) (by linarith)),
    if_neg (notBand_right (1/10) (by linarith)),
    if_neg (notBand_right (-1/10) (by linarith)),
    if_neg (notBand_right (-1/4) (by linarith)),
    if_neg (notBand_right (-1/2) (by linarith))]

theorem classify_region0 (q : ℚ) (h1 : -1/2 ≤ q) (h2 : q < -1/4) :
    classifyVal BURN_SEVERITY_CLASSES (F.fin q) = 0 ∧
    BURN_SEVERITY_CLASSES.countP (fun b => inBandB b (F.fin q)) = 1 := by
  constructor
  · simp only [classifyVal, BURN_SEVERITY_CLASSES, List.enum, List.enumFrom, List.foldl,
      inBandB, F.leB, F.ltB, Bool.and_eq_true, decide_eq_true_eq]
    rw [if_neg (notBand_left (13/10) (by linarith)),
      if_neg (notBand_left (66/100) (by linarith)),
      if_neg (notBand_left (27/100) (by linarith)),
      if_neg (notBand_left (1/10) (by linarith)),
      if_neg (notBand_left (-1/10) (by linarith)),
      if_pos (And.intro h1 h2)]
  · simp only [BURN_SEVERITY_CLASSES, List.countP_cons, List.countP_nil,
      inBandB, F.leB, F.ltB, Bool.and_eq_true, decide_eq_true_eq]
    rw [if_pos (And.intro h1 h2),
      if_neg (notBand_left (-1/10) (by linarith)),
      if_neg (notBand_left (1/10) (by linarith)),
      if_neg (notBand_left (27/100) (by linarith)),
      if_neg (notBand_left (66/100) (by linarith)),
      if_neg (notBand_left (13/10) (by linarith))]

theorem classify_region1 (q : ℚ) (h1 : -1/4 ≤ q) (h2 : q < -1/10) :
    classifyVal BURN_SEVERITY_CLASSES (F.fin q) = 1 ∧
    BURN_SEVERITY_CLASSES.countP (fun b => inBandB b (F.fin q)) = 1 := by
  constructor
  · simp only [classifyVal, BURN_SEVERITY_CLASSES, List.enum, List.enumFrom, List.foldl,
      inBandB, F.leB, F.ltB, Bool.and_eq_true, decide_eq_true_eq]
    rw [if_neg (notBand_left (13/10) (by linarith)),
      if_neg (notBand_left (66/100) (by linarith)),
      if_neg (notBand_left (27/100) (by linarith)),
      if_neg (notBand_left (1/10) (by linarith)),
      if_pos (And.intro h1 h2)]
  · simp only [BURN_SEVERITY_CLASSES, List.countP_cons, List.countP_nil,
      inBandB, F.leB, F.ltB, Bool.and_eq_true, decide_eq_true_eq]
    rw [if_pos (And.intro h1 h2),
      if_neg (notBand_right (-1/2) (by linarith)),
      if_neg (notBand_left (1/10) (by linarith)),
      if_neg (notBand_left (27/100) (by linarith)),
      if_neg (notBand_left (66/100) (by linarith)),
      if_neg (notBand_left (13/10) (by linarith))]

theorem classify_region2 (q : ℚ) (h1 : -1/10 ≤ q) (h2 : q < 1/10) :
    classifyVal BURN_SEVERITY_CLASSES (F.fin q) = 2 ∧
    BURN_SEVERITY_CLASSES.countP (fun b => inBandB b (F.fin q)) = 1 := by
  constructor
  · simp only [classifyVal, BURN_SEVERITY_CLASSES, List.enum, List.enumFrom, List.foldl,
      inBandB, F.leB, F.ltB, Bool.and_eq_true, decide_eq_true_eq]
    rw [if_neg (notBand_left (13/10) (by linarith)),
      if_neg (notBand_left (66/100) (by linarith)),
      if_neg (notBand_left (27/100) (by linarith)),
      if_pos (And.intro h1 h2)]
  · simp only [BURN_SEVERITY_CLASSES, List.countP_cons, List.countP_nil,
      inBandB, F.leB, F.ltB, Bool.and_eq_true, decide_eq_true_eq]
    rw [if_pos (And.intro h1 h2),
      if_neg (notBand_right (-1/2) (by linarith)),
      if_neg (notBand_right (-1/4) (by linarith)),
      if_neg (notBand_left (27/100) (by linarith)),
      if_neg (notBand_left (66/100) (by linarith)),
      if_neg (notBand_left (13/10) (by linarith))]

theorem classify_region3 (q : ℚ) (h1 : 1/10 ≤ q) (h2 : q < 27/100) :
    classifyVal BURN_SEVERITY_CLASSES (F.fin q) = 3 ∧
    BURN_SEVERITY_CLASSES.countP (fun b => inBandB b (F.fin q)) = 1 := by
  constructor
  · simp only [classifyVal, BURN_SEVERITY_CLASSES, List.enum, List.enumFrom, List.foldl,
      inBandB, F.leB, F.ltB, Bool.and_eq_true, decide_eq_true_eq]
    rw [if_neg (notBand_left (13/10) (by linarith)),
      if_neg (notBand_left (66/100) (by linarith)),
      if_pos (And.intro h1 h2)]
  · simp only [BURN_SEVERITY_CLASSES, List.countP_cons, List.countP_nil,
      inBandB, F.leB, F.ltB, Bool.and_eq_true, decide_eq_true_eq]
    rw [if_pos (And.intro h1 h2),
      if_neg (notBand_right (-1/2) (by linarith)),
      if_neg (notBand_right (-1/4) (by linarith)),
      if_neg (notBand_right (-1/10) (by linarith)),
      if_neg (notBand_left (66/100) (by linarith)),
      if_neg (notBand_left (13/10) (by linarith))]

theorem classify_region4 (q : ℚ) (h1 : 27/100 ≤ q) (h2 : q < 66/100) :
    classifyVal BURN_SEVERITY_CLASSES (F.fin q) = 4 ∧
    BURN_SEVERITY_CLASSES.countP (fun b => inBandB b (F.fin q)) = 1 := by
  constructor
  · simp only [classifyVal, BURN_SEVERITY_CLASSES, List.enum, List.enumFrom, List.foldl,
      inBandB, F.leB, F.ltB, Bool.and_eq_true, decide_eq_true_eq]
    rw [if_neg (notBand_left (13/10) (by linarith)),
      if_pos (And.intro h1 h2)]
  · simp only [BURN_SEVERITY_CLASSES, List.countP_cons, List.countP_nil,
      inBandB, F.leB, F.ltB, Bool.and_eq_true, decide_eq_true_eq]
    rw [if_pos (And.intro h1 h2),
      if_neg (notBand_right (-1/2) (by linarith)),
      if_neg (notBand_right (-1/4) (by linarith)),
      if_neg (notBand_right (-1/10) (by linarith)),
      if_neg (notBand_right (1/10) (by linarith)),
      if_neg (notBand_left (13/10) (by linarith))]

theorem classify_region5 (q : ℚ) (h1 : 66/100 ≤ q) (h2 : q < 13/10) :
    classifyVal BURN_SEVERITY_CLASSES (F.fin q) = 5 ∧
    BURN_SEVERITY_CLASSES.countP (fun b => inBandB b (F.fin q)) = 1 := by
  constructor
  · simp only [classifyVal, BURN_SEVERITY_CLASSES, List.enum, List.enumFrom, List.foldl,
      inBandB, F.leB, F.ltB, Bool.and_eq_true, decide_eq_true_eq]
    rw [if_pos (And.intro h1 h2)]
  · simp only [BURN_SEVERITY_CLASSES, List.countP_cons, List.countP_nil,
      inBandB, F.leB, F.ltB, Bool.and_eq_true, decide_eq_true_eq]
    rw [if_pos (And.intro h1 h2),
      if_neg (notBand_right (-1/2) (by linarith)),
      if_neg (notBand_right (-1/4) (by linarith)),
      if_neg (notBand_right (-1/10) (by linarith)),
      if_neg (notBand_right (1/10) (by linarith)),
      if_neg (notBand_right (27/100) (by linarith))]

/-! ### Claim theorems -/

/-- Counterexample to claim C1: with two overlapping bands `[0,1)` named
"A" and "B", the value 0.5 lies in both, yet `classify_dnbr`'s loop
assigns the index 1 of the LATER band, not the index 0 of the first
matching band as the claim states. -/
theorem classify_overlap_counterexample :
    inBandB ⟨"A", 0, 1, (0, 0, 0)⟩ (F.fin (1/2)) = true ∧
    inBandB ⟨"B", 0, 1, (0, 0, 0)⟩ (F.fin (1/2)) = true ∧
    classifyVal [⟨"A", 0, 1, (0, 0, 0)⟩, ⟨"B", 0, 1, (0, 0, 0)⟩] (F.fin (1/2)) = 1 ∧
    0 ≠ classifyVal [⟨"A", 0, 1, (0, 0, 0)⟩, ⟨"B", 0, 1, (0, 0, 0)⟩] (F.fin (1/2)) := by
  norm_num [classifyVal, inBandB, F.leB, F.ltB, List.enum, List.enumFrom]

/-- Claim C1 as amended: for every ordered severity-band list and every
dNBR raster, the classifier assigns to each pixel the index of the LAST
band in list order whose half-open interval contains the pixel value
(each loop iteration overwrites earlier assignments), and 255 when no
band contains it; with non-overlapping bands this coincides with
first-match. -/
theorem classify_last_match (bands : List BurnSeverityClass) (dnbr : List F) :
    dnbr.map (classifyVal bands) =
      dnbr.map (fun v =>
        ((((bands.enum.filter (fun p => inBandB p.2 v)).map Prod.fst).getLast?).getD 255)) := by
  have hf : classifyVal bands = fun v =>
      ((((bands.enum.filter (fun p => inBandB p.2 v)).map Prod.fst).getLast?).getD 255) :=
    funext fun v => foldl_overwrite (fun b => inBandB b v) bands.enum 255
  rw [hf]

/-- Claim C3: classification is total and deterministic — every finite
dNBR value in `[-0.5, 1.3)` gets a class index at most 5 and lies in
exactly one band; NaN and out-of-domain values get the sentinel 255; the
lower bound of a band is inclusive and the upper bound exclusive, so
0.100 is Low Severity (3) and 0.270 is Moderate Severity (4). -/
theorem classify_dnbr_total :
    (∀ q : ℚ, -1/2 ≤ q → q < 13/10 →
      classifyVal BURN_SEVERITY_CLASSES (F.fin q) ≤ 5 ∧
      BURN_SEVERITY_CLASSES.countP (fun b => inBandB b (F.fin q)) = 1) ∧
    classifyVal BURN_SEVERITY_CLASSES F.nan = 255 ∧
    (∀ q : ℚ, q < -1/2 → classifyVal BURN_SEVERITY_CLASSES (F.fin q) = 255) ∧
    (∀ q : ℚ, 13/10 ≤ q → classifyVal BURN_SEVERITY_CLASSES (F.fin q) = 255) ∧
    classify_dnbr [F.fin (1/10)] = [3] ∧
    classify_dnbr [F.fin (27/100)] = [4] := by
  refine ⟨?_, rfl, classify_below, classify_above, ?_, ?_⟩
  · intro q h1 h2
    rcases lt_or_le q (-1/4) with hA | hA
    · obtain ⟨hc, hu⟩ := classify_region0 q h1 hA
      exact ⟨by rw [hc]; norm_num, hu⟩
    rcases lt_or_le q (-1/10) with hB | hB
    · obtain ⟨hc, hu⟩ := classify_region1 q hA hB
      exact ⟨by rw [hc]; norm_num, hu⟩
    rcases lt_or_le q (1/10) with hC | hC
    · obtain ⟨hc, hu⟩ := classify_region2 q hB hC
      exact ⟨by rw [hc]; norm_num, hu⟩
    rcases lt_or_le q (27/100) with hD | hD
    · obtain ⟨hc, hu⟩ := classify_region3 q hC hD
      exact ⟨by rw [hc]; norm_num, hu⟩
    rcases lt_or_le q (66/100) with hE | hE
    · obtain ⟨hc, hu⟩ := classify_region4 q hD hE
      exact ⟨by rw [hc]; norm_num, hu⟩
    · obtain ⟨hc, hu⟩ := classify_region5 q hE h2
      exact ⟨by rw [hc], hu⟩
  · simp only [classify_dnbr, List.map_cons, List.map_nil]
    rw [(classify_region3 (1/10) (by norm_num) (by norm_num)).1]
  · simp only [classify_dnbr, List.map_cons, List.map_nil]
    rw [(classify_region4 (27/100) (by norm_num) (by norm_num)).1]

/-- Witness for C3 at concrete values: 0 is in the domain and classified
Unburned with a unique containing band, -1 and 2 are out of domain. -/
theorem classify_dnbr_total_witness :
    classifyVal BURN_SEVERITY_CLASSES (F.fin 0) ≤ 5 ∧
    BURN_SEVERITY_CLASSES.countP (fun b => inBandB b (F.fin 0)) = 1 ∧
    classifyVal BURN_SEVERITY_CLASSES (F.fin (-1)) = 255 ∧
    classifyVal BURN_SEVERITY_CLASSES (F.fin 2) = 255 := by
  obtain ⟨hin, _, hbelow, habove, _, _⟩ := classify_dnbr_total
  obtain ⟨h1, h2⟩ := hin 0 (by norm_num) (by norm_num)
  exact ⟨h1, h2, hbelow (-1) (by norm_num), habove 2 (by norm_num)⟩

/-- Claim C4: `calculate_nbr` preserves the raster shape, its output is
NaN at exactly the pixels where `nir + swir == 0` or either input is NaN,
it never contains an infinity, and under the reflectance precondition
(both inputs in `[0, 1]` with nonzero sum) the output pixel lies in
`[-1, 1]`.  Raster cells are finite-or-NaN, the data-model invariant for
decoded reflectance rasters (NaN is the sole invalid sentinel). -/
theorem calculate_nbr_contract (nir swir : List F)
    (hlen : nir.length = swir.length)
    (ha : ∀ v ∈ nir, v.isInf = false) (hb : ∀ v ∈ swir, v.isInf = false) :
    (calculate_nbr nir swir).length = nir.length ∧
    ∀ i, i < nir.length →
      ((calculate_nbr nir swir).getD i F.nan = F.nan ↔
        F.add (nir.getD i F.nan) (swir.getD i F.nan) = F.fin 0 ∨
        nir.getD i F.nan = F.nan ∨ swir.getD i F.nan = F.nan) ∧
      ((calculate_nbr nir swir).getD i F.nan).isInf = false ∧
      (∀ qa qb : ℚ, nir.getD i F.nan = F.fin qa → swir.getD i F.nan = F.fin qb →
        0 ≤ qa → qa ≤ 1 → 0 ≤ qb → qb ≤ 1 → qa + qb ≠ 0 →
        ∃ w : ℚ, (calculate_nbr nir swir).getD i F.nan = F.fin w ∧
          -1 ≤ w ∧ w ≤ 1) := by
  constructor
  · simp [calculate_nbr, List.length_zipWith, hlen]
  · intro i hi
    have hz := zipWith_getD nbrVal nir swir i hlen hi
    refine ⟨?_, ?_, ?_⟩
    · simp only [calculate_nbr]
      rw [hz]
      exact nbrVal_nan_iff _ _ (getD_isInf_false ha hi) (getD_isInf_false hb (hlen ▸ hi))
    · simp only [calculate_nbr]
      rw [hz]
      exact safe_divide_not_inf _ _
    · intro qa qb hqa hqb h1 h2 h3 h4 h5
      simp only [calculate_nbr]
      rw [hz, hqa, hqb]
      exact nbrVal_range qa qb h1 h2 h3 h4 h5

/-- Witness for C4 on the spec's probe raster: NIR 0.8, SWIR 0.2 give
NBR 0.6, inside `[-1, 1]`. -/
theorem calculate_nbr_contract_witness :
    calculate_nbr [F.fin (4/5)] [F.fin (1/5)] = [F.fin (3/5)] ∧
    ∃ w : ℚ, (calculate_nbr [F.fin (4/5)] [F.fin (1/5)]).getD 0 F.nan = F.fin w ∧
      -1 ≤ w ∧ w ≤ 1 := by
  constructor
  · norm_num [calculate_nbr, nbrVal, safe_divide, F.sub, F.neg, F.add, F.div]
  · have h := calculate_nbr_contract [F.fin (4/5)] [F.fin (1/5)] rfl
      (by intro v hv; rw [List.mem_singleton.mp hv]; rfl)
      (by intro v hv; rw [List.mem_singleton.mp hv]; rfl)
    exact (h.2 0 (by norm_num)).2.2 (4/5) (1/5) rfl rfl (by norm_num) (by norm_num)
      (by norm_num) (by norm_num) (by norm_num)

/-- Counterexample to claim C5: an input pixel that is +Inf does NOT
become 0.0 — `np.clip` maps it to `max_val` before the NaN/Inf fallback
can apply, so it rescales to exactly 1.0. -/
theorem normalize_posinf_counterexample :
    normalize_for_overlay F.pinf = F.fin 1 ∧ F.fin (1 : ℚ) ≠ F.fin 0 := by
  constructor
  · norm_num [normalize_for_overlay, F.clip, F.sub, F.neg, F.add, F.div, F.nanToNum]
  · simp

/-- Claim C5 as amended: for `min_val < max_val`, `normalize_for_overlay`
clips each finite value to `[min_val, max_val]` and linearly rescales it
to `[0, 1]`; NaN and -Inf inputs become exactly 0.0 while +Inf becomes
exactly 1.0 (clipping maps it to `max_val` first); no NaN or infinity
appears in the output. -/
theorem normalize_for_overlay_amended (min_val max_val : ℚ)
    (h : min_val < max_val) (v : F) :
    (v = F.nan → normalize_for_overlay v min_val max_val = F.fin 0) ∧
    (v = F.ninf → normalize_for_overlay v min_val max_val = F.fin 0) ∧
    (v = F.pinf → normalize_for_overlay v min_val max_val = F.fin 1) ∧
    (∀ q : ℚ, v = F.fin q →
      normalize_for_overlay v min_val max_val =
        F.fin ((min (max q min_val) max_val - min_val) / (max_val - min_val))) ∧
    (∃ w : ℚ, normalize_for_overlay v min_val max_val = F.fin w ∧
      0 ≤ w ∧ w ≤ 1) := by
  have hd : max_val - min_val ≠ 0 := sub_ne_zero.mpr (ne_of_gt h)
  have hnan : normalize_for_overlay F.nan min_val max_val = F.fin 0 := rfl
  have hninf : normalize_for_overlay F.ninf min_val max_val = F.fin 0 := by
    simp only [normalize_for_overlay, F.clip, F.sub, F.neg, F.add,
      F.div_fin_of_ne hd, F.nanToNum]
    norm_num
  have hpinf : normalize_for_overlay F.pinf min_val max_val = F.fin 1 := by
    simp only [normalize_for_overlay, F.clip, F.sub, F.neg, F.add,
      F.div_fin_of_ne hd, F.nanToNum]
    rw [← sub_eq_add_neg, div_self hd]
  have hfin : ∀ q : ℚ, normalize_for_overlay (F.fin q) min_val max_val =
      F.fin ((min (max q min_val) max_val - min_val) / (max_val - min_val)) := by
    intro q
    simp only [normalize_for_overlay, F.clip, F.sub, F.neg, F.add,
      F.div_fin_of_ne hd, F.nanToNum]
    rw [← sub_eq_add_neg]
  refine ⟨fun hv => by rw [hv]; exact hnan, fun hv => by rw [hv]; exact hninf,
    fun hv => by rw [hv]; exact hpinf, fun q hv => by rw [hv]; exact hfin q, ?_⟩
  cases v with
  | nan => exact ⟨0, hnan, le_refl 0, by norm_num⟩
  | pinf => exact ⟨1, hpinf, by norm_num, le_refl 1⟩
  | ninf => exact ⟨0, hninf, le_refl 0, by norm_num⟩
  | fin q =>
    refine ⟨(min (max q min_val) max_val - min_val) / (max_val - min_val),
      hfin q, ?_, ?_⟩
    · have hlo : min_val ≤ min (max q min_val) max_val :=
        le_min (le_max_right q min_val) (le_of_lt h)
      exact div_nonneg (by linarith) (by linarith)
    · rw [div_le_one (by linarith)]
      have hhi : min (max q min_val) max_val ≤ max_val := min_le_right _ _
      linarith

/-- Witness for the amended C5 with the default bounds -1 and 1: NaN
maps to 0, +Inf maps to 1, and a finite input stays in `[0, 1]`. -/
theorem normalize_for_overlay_amended_witness :
    normalize_for_overlay F.nan (-1) 1 = F.fin 0 ∧
    normalize_for_overlay F.pinf (-1) 1 = F.fin 1 ∧
    ∃ w : ℚ, normalize_for_overlay (F.fin (1/2)) (-1) 1 = F.fin w ∧
      0 ≤ w ∧ w ≤ 1 := by
  have h1 := normalize_for_overlay_amended (-1) 1 (by norm_num) F.nan
  have h2 := normalize_for_overlay_amended (-1) 1 (by norm_num) F.pinf
  have h3 := normalize_for_overlay_amended (-1) 1 (by norm_num) (F.fin (1/2))
  exact ⟨h1.1 rfl, h2.2.2.1 rfl, h3.2.2.2.2⟩

/-- Counterexample to claim C2: the pixel with original value 0 is not
strictly positive, so the claim demands alpha 0, but the rendered
overlay's alpha there is 180 — the code tests the NORMALIZED value
(0 normalizes to 0.5 > 0), not the original one. -/
theorem overlay_alpha_counterexample :
    overlayAlphaVal (F.fin 0) = 180 ∧ ¬((0 : ℚ) > 0) := by
  constructor
  · norm_num [overlayAlphaVal, colorizeAlpha, normalize_for_overlay, F.clip,
      F.sub, F.neg, F.add, F.div, F.nanToNum, F.ltB]
  · norm_num

/-- Claim C2 as amended: in the rendered overlay the alpha of a pixel is
180 exactly when the original value is strictly greater than the
normalization lower bound -1.0 (NaN and values at or below -1 get 0);
equivalently, 180 exactly when the normalized value is strictly
positive. -/
theorem overlay_alpha_amended (v : F) :
    overlayAlphaVal v = if F.ltB (F.fin (-1)) v then 180 else 0 := by
  have hd : (1 : ℚ) - (-1) ≠ 0 := by norm_num
  cases v with
  | nan => rfl
  | pinf =>
    simp only [overlayAlphaVal, colorizeAlpha, normalize_for_overlay, F.clip,
      F.sub, F.neg, F.add, F.div_fin_of_ne hd, F.nanToNum, F.ltB]
    norm_num
  | ninf =>
    simp only [overlayAlphaVal, colorizeAlpha, normalize_for_overlay, F.clip,
      F.sub, F.neg, F.add, F.div_fin_of_ne hd, F.nanToNum, F.ltB]
    norm_num
  | fin q =>
    simp only [overlayAlphaVal, colorizeAlpha, normalize_for_overlay, F.clip,
      F.sub, F.neg, F.add, F.div_fin_of_ne hd, F.nanToNum, F.ltB,
      decide_eq_true_eq]
    by_cases hq : -1 < q
    · rw [if_pos, if_pos hq]
      have hmax : -1 < max q (-1) := lt_of_lt_of_le hq (le_max_left q (-1))
      have hmin : -1 < min (max q (-1)) 1 := lt_min hmax (by norm_num)
      exact div_pos (by linarith) (by norm_num)
    · rw [if_neg, if_neg hq]
      push_neg at hq
      rw [max_eq_right hq, min_eq_left (by norm_num : (-1 : ℚ) ≤ 1)]
      norm_num

/-- Claim C7: `compute_statistics` returns a mapping with exactly the five
keys `total_area_km2, burned_area_km2, burned_percentage,
high_severity_km2, high_severity_percentage` in that order, and each of
the three area values is the corresponding pixel count multiplied by the
fixed per-pixel ground area `1/10000` km² (10 m pixels). -/
theorem compute_statistics_keys_and_areas (dnbr : List F) :
    (compute_statistics dnbr).map Prod.fst =
      ["total_area_km2", "burned_area_km2", "burned_percentage",
       "high_severity_km2", "high_severity_percentage"] ∧
    (compute_statistics dnbr).lookup "total_area_km2" =
      some ((validDnbr dnbr).length * (1/10000 : ℚ)) ∧
    (compute_statistics dnbr).lookup "burned_area_km2" =
      some (burnedPixels dnbr * (1/10000 : ℚ)) ∧
    (compute_statistics dnbr).lookup "high_severity_km2" =
      some (highSeverityPixels dnbr * (1/10000 : ℚ)) := by
  refine ⟨rfl, ?_, ?_, ?_⟩ <;>
    simp [compute_statistics, List.lookup, pixel_area_km2] <;> norm_num

/-- Claim C10: on a dNBR raster whose every pixel is NaN the statistics
are still defined: all five values are 0, in particular both percentages
(the division by the valid-pixel count is guarded by `total_pixels > 0`). -/
theorem compute_statistics_all_nan (dnbr : List F)
    (h : ∀ v ∈ dnbr, v = F.nan) :
    compute_statistics dnbr =
      [("total_area_km2", 0), ("burned_area_km2", 0),
       ("burned_percentage", 0), ("high_severity_km2", 0),
       ("high_severity_percentage", 0)] := by
  have hv : validDnbr dnbr = [] := by
    simp only [validDnbr, List.filter_eq_nil_iff]
    intro a ha
    rw [h a ha]
    simp [F.isNanB]
  simp [compute_statistics, burnedPixels, highSeverityPixels, hv]

/-- Witness for C10 at the concrete all-NaN raster `[NaN, NaN]`. -/
theorem compute_statistics_all_nan_witness :
    compute_statistics [F.nan, F.nan] =
      [("total_area_km2", 0), ("burned_area_km2", 0),
       ("burned_percentage", 0), ("high_severity_km2", 0),
       ("high_severity_percentage", 0)] := by
  refine compute_statistics_all_nan [F.nan, F.nan] ?_
  intro v hv
  simp only [List.mem_cons, List.not_mem_nil, or_false] at hv
  rcases hv with rfl | rfl <;> rfl

/-- Claim C9: at the band boundaries the classifier and the statistics
disagree: dNBR exactly 0.10 is classified Low Severity (index 3) yet not
counted as burned (strict `> 0.10`), and dNBR exactly 0.66 is classified
High Severity (index 5) yet not counted as high severity (strict
`> 0.66`). -/
theorem classify_vs_statistics_boundary :
    classify_dnbr [F.fin (1/10)] = [3] ∧
    burnedPixels [F.fin (1/10)] = 0 ∧
    (compute_statistics [F.fin (1/10)]).lookup "burned_area_km2" = some 0 ∧
    (compute_statistics [F.fin (1/10)]).lookup "burned_percentage" = some 0 ∧
    classify_dnbr [F.fin (66/100)] = [5] ∧
    highSeverityPixels [F.fin (66/100)] = 0 ∧
    (compute_statistics [F.fin (66/100)]).lookup "high_severity_km2" = some 0 ∧
    (compute_statistics [F.fin (66/100)]).lookup "high_severity_percentage" = some 0 := by
  refine ⟨?_, ?_, ?_, ?_, ?_, ?_, ?_, ?_⟩ <;>
    norm_num [classify_dnbr, classifyVal, BURN_SEVERITY_CLASSES, inBandB, F.leB, F.ltB,
      List.enum, List.enumFrom, compute_statistics, burnedPixels, highSeverityPixels,
      validDnbr, F.isNanB, pixel_area_km2, List.lookup] <;> rfl

/-- Counterexample to claim C6: `calculate_dnbr` performs no shape check;
on the shape-mismatched inputs `[5]` and `[1, 2]` it does not fail but
broadcasts, returning `[4, 3]`. -/
theorem calculate_dnbr_no_shape_check :
    ([F.fin 5] : List F).length ≠ ([F.fin 1, F.fin 2] : List F).length ∧
    calculate_dnbr [F.fin 5] [F.fin 1, F.fin 2] ≠ none ∧
    calculate_dnbr [F.fin 5] [F.fin 1, F.fin 2] = some [F.fin 4, F.fin 3] := by
  have h : calculate_dnbr [F.fin 5] [F.fin 1, F.fin 2] = some [F.fin 4, F.fin 3] := by
    norm_num [calculate_dnbr, npSubtract, F.sub, F.neg, F.add]
  exact ⟨by decide, by rw [h]; exact fun hc => Option.noConfusion hc, h⟩

/-- Claim C6 as amended: `calculate_dnbr` has no shape check of its own;
on identically-shaped inputs it returns the elementwise difference
`pre - post`, and the cellwise subtraction yields NaN whenever either
operand is NaN. -/
theorem calculate_dnbr_amended (pre post : List F)
    (h : pre.length = post.length) :
    calculate_dnbr pre post = some (List.zipWith F.sub pre post) ∧
    (List.zipWith F.sub pre post).length = pre.length ∧
    ∀ a b : F, a = F.nan ∨ b = F.nan → F.sub a b = F.nan := by
  refine ⟨?_, ?_, ?_⟩
  · simp [calculate_dnbr, npSubtract, h]
  · simp [List.length_zipWith, h]
  · rintro a b (rfl | rfl)
    · cases b <;> rfl
    · cases a <;> rfl

/-- Witness for the amended C6 on concrete equal-shape rasters,
including a NaN cell. -/
theorem calculate_dnbr_amended_witness :
    calculate_dnbr [F.fin 1, F.nan] [F.fin 3, F.fin 4] =
      some [F.fin (-2), F.nan] := by
  have h := calculate_dnbr_amended [F.fin 1, F.nan] [F.fin 3, F.fin 4] rfl
  rw [h.1]
  norm_num [F.sub, F.neg, F.add]

/-- Claim C8: `calculate_dnbr` is antisymmetric — for equal-shape rasters,
`calculate_dnbr pre post` equals the elementwise negation of
`calculate_dnbr post pre`; over `F` this equality is NaN-aware (NaN cells
coincide and all other cells are exact negations). -/
theorem calculate_dnbr_antisymm (pre post : List F)
    (h : pre.length = post.length) :
    calculate_dnbr pre post =
      (calculate_dnbr post pre).map (fun r => r.map F.neg) := by
  unfold calculate_dnbr npSubtract
  rw [if_pos h, if_pos h.symm, Option.map_some']
  exact congrArg some (zipWith_sub_antisymm pre post)

/-- Witness for C8 at concrete rasters `[1, NaN]` and `[3, 2]`. -/
theorem calculate_dnbr_antisymm_witness :
    calculate_dnbr [F.fin 1, F.nan] [F.fin 3, F.fin 2] =
      (calculate_dnbr [F.fin 3, F.fin 2] [F.fin 1, F.nan]).map
        (fun r => r.map F.neg) ∧
    calculate_dnbr [F.fin 1, F.nan] [F.fin 3, F.fin 2] =
      some [F.fin (-2), F.nan] := by
  refine ⟨calculate_dnbr_antisymm [F.fin 1, F.nan] [F.fin 3, F.fin 2] rfl, ?_⟩
  norm_num [calculate_dnbr, npSubtract, F.sub, F.neg, F.add]

end Dragonfly
